import Mathlib

/-!
# UniGPT — verification of the RAG core and frontend callers

Shallow embedding of the UniGPT repository.  The chunker, ingestion
pipeline, vector-index operations and upload-ledger record are modelled
from the specification (the Python backend `RAG/*.py` is not part of the
checked tree), while the React frontend callers (ChatArea, InputBox,
FileUpload, UploadHistory) are translated from their TypeScript sources.
Document text is modelled as a list of characters.
-/

/-! ## Chunker (modelled from the spec) -/

/-- Modelled from the spec: the Chunker loop (`pdf_processor.py` is not
in the checked tree).  It repeatedly emits a chunk of `C` characters and
advances by `C - O`; once the remaining text fits within a single chunk
it emits the (possibly truncated) remainder and stops.  The extra `Nat`
argument is fuel making the recursion structural; `chunkText` passes the
text length, which the lemmas show is always enough, and the `C ≤ O`
disjunct is a totality guard that never fires under the spec
precondition `0 ≤ O < C`. -/
def chunkGo (C O : Nat) : Nat → List Char → List (List Char)
  | 0, t => [t]
  | fuel + 1, t =>
    if t.length ≤ C ∨ C ≤ O then [t]
    else t.take C :: chunkGo C O fuel (t.drop (C - O))

/-- Modelled from the spec: the Chunker.  Empty text yields an empty
chunk sequence (degenerate input, not an error); otherwise the chunking
loop runs over the whole text. -/
def chunkText (C O : Nat) (t : List Char) : List (List Char) :=
  if t.isEmpty then [] else chunkGo C O t.length t

/-- Concatenation of a chunk sequence with the first `O` characters (the
overlap) removed from every chunk after the first. -/
def joinOverlap (O : Nat) : List (List Char) → List Char
  | [] => []
  | c :: rest => c ++ (rest.map (List.drop O)).flatten

/-! ## Vector index (modelled from the spec, §4.3) -/

/-- Embedding vectors; their numeric content is irrelevant to the claims
proved here, so components are integers. -/
abbrev EmbVec := List Int

/-- Modelled from the spec: a vector-index record, keyed by
`(document id, chunk ordinal)` and holding the chunk vector and text. -/
structure ChunkRecord where
  docId : Nat
  ordinal : Nat
  vec : EmbVec
  text : List Char
deriving DecidableEq

/-- The vector index, as the sequence of its records in insertion
order. -/
abbrev VecIndex := List ChunkRecord

/-- Does a record carry the given `(document id, chunk ordinal)` key? -/
def keyMatches (d o : Nat) (r : ChunkRecord) : Bool :=
  r.docId == d && r.ordinal == o

/-- Modelled from the spec: `upsert(document_id, chunk_ordinal, vector,
chunk_text)` — any prior record with the same key is replaced by the new
one rather than duplicated. -/
def upsert (d o : Nat) (v : EmbVec) (tx : List Char) (idx : VecIndex) : VecIndex :=
  idx.filter (fun r => !(keyMatches d o r)) ++ [⟨d, o, v, tx⟩]

/-- Modelled from the spec: `delete_document(document_id)` — removes all
chunks belonging to a document; used for failure rollback. -/
def deleteDocument (d : Nat) (idx : VecIndex) : VecIndex :=
  idx.filter (fun r => !(r.docId == d))

/-- All records of one document held by the index. -/
def recordsFor (d : Nat) (idx : VecIndex) : VecIndex :=
  idx.filter (fun r => r.docId == d)

/-- All records carrying one `(document id, chunk ordinal)` key. -/
def keyRecords (d o : Nat) (idx : VecIndex) : VecIndex :=
  idx.filter (keyMatches d o)

/-! ## Ingestion pipeline (modelled from the spec, §4.4) -/

/-- Document lifecycle states of the Upload Ledger. -/
inductive DocStatus
  | queued
  | processing
  | completed
  | failed
deriving DecidableEq

/-- Modelled from the spec: the embed-and-index stage of the ingestion
pipeline.  Chunks are processed in ordinal order; each is embedded and
upserted.  An embedding failure (`none`) aborts the whole document: the
document is marked `failed` and every already-issued upsert for it is
rolled back via `delete_document`. -/
def runIngest (embed : List Char → Option EmbVec) (d : Nat) :
    List (List Char) → Nat → VecIndex → DocStatus × VecIndex
  | [], _, idx => (.completed, idx)
  | c :: rest, ord, idx =>
    match embed c with
    | none => (.failed, deleteDocument d idx)
    | some v => runIngest embed d rest (ord + 1) (upsert d ord v c idx)

/-- Outcome of ingesting one document: terminal status, recorded chunk
count, and the resulting vector index. -/
structure IngestOutcome where
  status : DocStatus
  chunkCount : Nat
  index : VecIndex
deriving DecidableEq

/-- Modelled from the spec: `ingest` — chunk the extracted text, delete
any prior chunks for this document id (idempotent re-run), then embed
and index every chunk; the chunk count is recorded on completion. -/
def ingest (C O : Nat) (embed : List Char → Option EmbVec) (d : Nat)
    (text : List Char) (idx : VecIndex) : IngestOutcome :=
  let chunks := chunkText C O text
  let outcome := runIngest embed d chunks 0 (deleteDocument d idx)
  { status := outcome.1
    chunkCount := if outcome.1 = .completed then chunks.length else 0
    index := outcome.2 }

/-! ## Upload ledger record (source: `UploadHistory.tsx`, spec §3) -/

/-- The `Upload` interface of `UploadHistory.tsx`: the shape of each
document record exposed by the uploads listing. -/
structure Upload where
  id : Nat
  filename : String
  original_filename : String
  file_size : Nat
  upload_timestamp : String
  status : String
  num_pages : Option Nat
  num_chunks : Option Nat
  processing_time_seconds : Option Rat
  error_message : Option String
deriving DecidableEq

/-- Modelled from the spec: the Document record owned by the Upload
Ledger (`upload_history.py` is not in the checked tree): stable id,
stored path reference (`filename`), original filename, byte size,
upload timestamp, lifecycle status, page count, chunk count, processing
duration and last error message. -/
structure LedgerDocument where
  id : Nat
  filename : String
  original_filename : String
  file_size : Nat
  upload_timestamp : String
  status : DocStatus
  num_pages : Option Nat
  num_chunks : Option Nat
  processing_time_seconds : Option Rat
  error_message : Option String
deriving DecidableEq

/-- Serialisation of a lifecycle status, as it appears in the uploads
listing. -/
def statusString : DocStatus → String
  | .queued => "queued"
  | .processing => "processing"
  | .completed => "completed"
  | .failed => "failed"

/-- How a ledger Document is exposed to the uploads listing: every field
is carried over, the status as its string form. -/
def toUpload (d : LedgerDocument) : Upload :=
  { id := d.id
    filename := d.filename
    original_filename := d.original_filename
    file_size := d.file_size
    upload_timestamp := d.upload_timestamp
    status := statusString d.status
    num_pages := d.num_pages
    num_chunks := d.num_chunks
    processing_time_seconds := d.processing_time_seconds
    error_message := d.error_message }

/-! ## Chat caller (source: `ChatArea.tsx`) -/

/-- Message roles in the chat area. -/
inductive Role
  | user
  | assistant
deriving DecidableEq

/-- The `Message` interface of `ChatArea.tsx`. -/
structure Message where
  id : String
  role : Role
  content : String
deriving DecidableEq

/-- The body `handleSendMessage` posts to `/api/chat`: exactly the
fields `message` and `top_k`. -/
structure ChatRequest where
  message : String
  top_k : Nat
deriving DecidableEq

/-- Modelled from the spec: the error taxonomy (§7).  Backend failures
reach the caller as a value of this type rather than a crash. -/
inductive RagError
  | extractionFailure
  | embeddingFailure
  | indexFailure
  | generationFailure
  | invalidArgument
deriving DecidableEq

/-- The fixed fallback text `handleSendMessage` shows when the chat
request fails. -/
def chatErrorText : String :=
  "Sorry, I encountered an error. Please make sure the backend server is running on http://localhost:5001"

/-- First half of `handleSendMessage` in `ChatArea.tsx`: append the user
message (its id from the current time) and build the request body
`{ message: content, top_k: 3 }`. -/
def handleSendMessageStart (messages : List Message) (content : String)
    (now : Nat) : List Message × ChatRequest :=
  (messages ++ [⟨toString now, .user, content⟩], ⟨content, 3⟩)

/-- Second half of `handleSendMessage` in `ChatArea.tsx`: on a
successful response append the assistant message, on any failure append
the fixed error text as an assistant turn; either way the loading flag
ends `false`. -/
def handleSendMessageFinish (messages : List Message)
    (outcome : Except RagError String) (now : Nat) : List Message × Bool :=
  match outcome with
  | .ok resp => (messages ++ [⟨toString now, .assistant, resp⟩], false)
  | .error _ => (messages ++ [⟨toString now, .assistant, chatErrorText⟩], false)

/-- The whole of `handleSendMessage`: the message list after the
exchange, the final loading flag, and the request that was sent. -/
def handleSendMessage (messages : List Message) (content : String)
    (outcome : Except RagError String) (n1 n2 : Nat) :
    List Message × Bool × ChatRequest :=
  let s := handleSendMessageStart messages content n1
  let f := handleSendMessageFinish s.1 outcome n2
  (f.1, f.2, s.2)

/-! ## Input box (source: `InputBox.tsx`) -/

/-- Whitespace trimming on both ends of a character list, as the
TypeScript `input.trim()`. -/
def trimChars (l : List Char) : List Char :=
  ((l.dropWhile Char.isWhitespace).reverse.dropWhile Char.isWhitespace).reverse

/-- `handleSend` in `InputBox.tsx`: when the trimmed input is nonempty
and the box is not disabled, the (untrimmed) input is emitted through
`onSendMessage` and the field is reset; otherwise nothing is emitted and
the field keeps its text.  Result: (message emitted, field text after). -/
def handleSend (input : List Char) (disabled : Bool) :
    Option (List Char) × List Char :=
  if trimChars input ≠ [] ∧ disabled = false then (some input, []) else (none, input)

/-! ## File upload (source: `FileUpload.tsx`) -/

/-- A browser file as the upload handlers see it: name and MIME type. -/
structure WebFile where
  name : String
  type : String
deriving DecidableEq

/-- What a drop / file-selection event leads to. -/
inductive UploadAction
  | none
  | reject (statusMessage : String) (callbackMessage : String)
  | upload (f : WebFile)
deriving DecidableEq

/-- The shared body of `handleDrop` and `handleFileSelect` in
`FileUpload.tsx`: an empty file list does nothing; otherwise only the
first file is considered, a PDF is uploaded, and anything else sets an
error status and fires `onUploadError`, both with the fixed message. -/
def handleFiles (files : List WebFile) : UploadAction :=
  match files with
  | [] => .none
  | f :: _ =>
    if f.type = "application/pdf" then .upload f
    else .reject "Only PDF files are allowed" "Only PDF files are allowed"

/-- `handleDrop` of `FileUpload.tsx`. -/
def handleDrop (files : List WebFile) : UploadAction := handleFiles files

/-- `handleFileSelect` of `FileUpload.tsx`. -/
def handleFileSelect (files : List WebFile) : UploadAction := handleFiles files

/-! ## Chunker lemmas -/

/-- One step of the ceiling-division recurrence used by the chunk
count. -/
theorem ceilStep (a s : Nat) (hs : 0 < s) (ha : 0 < a) :
    (a - s + s - 1) / s + 1 = (a + s - 1) / s := by
  rcases Nat.lt_or_ge a s with h | h
  · rw [show a - s = 0 by omega, Nat.zero_add,
      Nat.div_eq_of_lt (by omega),
      Nat.div_eq_of_lt_le (show 1 * s ≤ a + s - 1 by omega) (by omega)]
  · rw [show a - s + s = a by omega,
      show a + s - 1 = a - 1 + s by omega, Nat.add_div_right _ hs]

/-- Dropping the overlap of a chunk taken from position `O` onward. -/
theorem drop_take_comm (O C : Nat) (h : O ≤ C) (t : List Char) :
    List.drop O (List.take C t) = List.take (C - O) (List.drop O t) := by
  rw [List.take_drop, Nat.add_sub_cancel' h]

/-- Length of the chunking loop output, as a ceiling division, for any
sufficient fuel. -/
theorem chunkGo_length (C O : Nat) (hO : O < C) :
    ∀ fuel (t : List Char), t.length ≤ fuel + C →
      (chunkGo C O fuel t).length = (t.length - C + (C - O) - 1) / (C - O) + 1 := by
  intro fuel
  induction fuel with
  | zero =>
    intro t ht
    simp only [chunkGo, List.length_singleton]
    rw [show t.length - C = 0 by omega, Nat.zero_add,
      Nat.div_eq_of_lt (by omega)]
  | succ n ih =>
    intro t ht
    by_cases hc : t.length ≤ C ∨ C ≤ O
    · have h1 : t.length ≤ C := hc.resolve_right (by omega)
      simp only [chunkGo, if_pos hc, List.length_singleton]
      rw [show t.length - C = 0 by omega, Nat.zero_add,
        Nat.div_eq_of_lt (by omega)]
    · have hc2 := hc
      push_neg at hc2
      simp only [chunkGo, if_neg hc, List.length_cons]
      rw [ih (t.drop (C - O)) (by rw [List.length_drop]; omega),
        List.length_drop,
        show t.length - (C - O) - C = t.length - C - (C - O) by omega,
        ceilStep (t.length - C) (C - O) (by omega) (by omega)]

/-- Dropping the first `O` characters of every chunk and concatenating
recovers the text from position `O` onward. -/
theorem chunkGo_dropOverlap (C O : Nat) (hO : O < C) :
    ∀ fuel (t : List Char), t.length ≤ fuel + C →
      ((chunkGo C O fuel t).map (List.drop O)).flatten = t.drop O := by
  intro fuel
  induction fuel with
  | zero =>
    intro t ht
    simp [chunkGo]
  | succ n ih =>
    intro t ht
    by_cases hc : t.length ≤ C ∨ C ≤ O
    · simp [chunkGo, if_pos hc]
    · have hc2 := hc
      push_neg at hc2
      simp only [chunkGo, if_neg hc, List.map_cons, List.flatten_cons]
      have hdc : List.drop C t = List.drop (C - O) (List.drop O t) := by
        rw [List.drop_drop, Nat.add_sub_cancel' hO.le]
      rw [ih (t.drop (C - O)) (by rw [List.length_drop]; omega),
        List.drop_drop, show C - O + O = C by omega,
        drop_take_comm O C (by omega) t, hdc]
      exact List.take_append_drop _ _

/-- Every chunk is the `C`-character window of the text at its start
offset `i * (C - O)`. -/
theorem chunkGo_getElem (C O : Nat) (hO : O < C) :
    ∀ fuel (t : List Char), t.length ≤ fuel + C →
      ∀ i (hi : i < (chunkGo C O fuel t).length),
        (chunkGo C O fuel t)[i] = (t.drop (i * (C - O))).take C := by
  intro fuel
  induction fuel with
  | zero =>
    intro t ht i hi
    simp only [chunkGo, List.length_singleton] at hi
    match i, hi with
    | 0, _ =>
      simp only [chunkGo, List.getElem_cons_zero, Nat.zero_mul, List.drop_zero]
      rw [List.take_of_length_le (by omega)]
  | succ n ih =>
    intro t ht i hi
    by_cases hc : t.length ≤ C ∨ C ≤ O
    · have h1 : t.length ≤ C := hc.resolve_right (by omega)
      simp only [chunkGo, if_pos hc, List.length_singleton] at hi
      match i, hi with
      | 0, _ =>
        simp only [chunkGo, if_pos hc, List.getElem_cons_zero, Nat.zero_mul,
          List.drop_zero]
        rw [List.take_of_length_le (by omega)]
    · have hc2 := hc
      push_neg at hc2
      simp only [chunkGo, if_neg hc, List.length_cons] at hi
      match i, hi with
      | 0, _ =>
        simp [chunkGo, if_neg hc]
      | j + 1, hj =>
        simp only [chunkGo, if_neg hc, List.getElem_cons_succ]
        rw [ih (t.drop (C - O)) (by rw [List.length_drop]; omega) j (by omega),
          List.drop_drop, show C - O + j * (C - O) = (j + 1) * (C - O) by ring]

/-- Every chunk except possibly the last spans exactly `C`
characters. -/
theorem chunkGo_full_length (C O : Nat) (hO : O < C) :
    ∀ fuel (t : List Char), t.length ≤ fuel + C →
      ∀ i (hi : i + 1 < (chunkGo C O fuel t).length),
        (chunkGo C O fuel t)[i].length = C := by
  intro fuel
  induction fuel with
  | zero =>
    intro t ht i hi
    simp only [chunkGo, List.length_singleton] at hi
    omega
  | succ n ih =>
    intro t ht i hi
    by_cases hc : t.length ≤ C ∨ C ≤ O
    · simp only [chunkGo, if_pos hc, List.length_singleton] at hi
      omega
    · have hc2 := hc
      push_neg at hc2
      simp only [chunkGo, if_neg hc, List.length_cons] at hi
      match i, hi with
      | 0, _ =>
        simp only [chunkGo, if_neg hc, List.getElem_cons_zero, List.length_take]
        omega
      | j + 1, hj =>
        simp only [chunkGo, if_neg hc, List.getElem_cons_succ]
        exact ih (t.drop (C - O)) (by rw [List.length_drop]; omega) j (by omega)

/-- The chunking loop output, concatenated with overlaps removed,
reconstructs the text. -/
theorem chunkGo_joinOverlap (C O : Nat) (hO : O < C) :
    ∀ fuel (t : List Char), t.length ≤ fuel + C →
      joinOverlap O (chunkGo C O fuel t) = t := by
  intro fuel t ht
  match fuel with
  | 0 => simp [chunkGo, joinOverlap]
  | n + 1 =>
    by_cases hc : t.length ≤ C ∨ C ≤ O
    · simp [chunkGo, if_pos hc, joinOverlap]
    · have hc2 := hc
      push_neg at hc2
      have hdc : List.drop C t = List.drop (C - O) (List.drop O t) := by
        rw [List.drop_drop, Nat.add_sub_cancel' hO.le]
      simp only [chunkGo, if_neg hc, joinOverlap]
      rw [chunkGo_dropOverlap C O hO n (t.drop (C - O))
          (by rw [List.length_drop]; omega),
        List.drop_drop, show C - O + O = C by omega]
      exact List.take_append_drop _ _

/-! ## Claim theorems -/

/-- Claim C1: for every input text `T`, chunk size `C` and overlap `O`
with `0 ≤ O < C`, the Chunker produces chunks where chunk `i` starts at
character offset `i * (C - O)` and spans `C` characters (the final
chunk truncated to the remaining text), concatenating the chunks with
the `O`-character overlaps removed reconstructs `T` exactly, and the
number of chunks equals `ceil((len T - O) / (C - O))` when
`len T > O`, `1` when `0 < len T ≤ O`, and `0` when `T` is empty. -/
theorem chunker_correct (C O : Nat) (hO : O < C) (t : List Char) :
    (∀ i (hi : i < (chunkText C O t).length),
        (chunkText C O t)[i] = (t.drop (i * (C - O))).take C) ∧
    (∀ i (hi : i + 1 < (chunkText C O t).length),
        (chunkText C O t)[i].length = C) ∧
    joinOverlap O (chunkText C O t) = t ∧
    (chunkText C O t).length =
      (if t.length = 0 then 0
       else if t.length ≤ O then 1
       else (t.length - O + (C - O) - 1) / (C - O)) := by
  by_cases ht : t.isEmpty
  · rw [List.isEmpty_iff] at ht
    subst ht
    simp [chunkText, joinOverlap]
  · have htne : t ≠ [] := fun h => ht (by simp [h])
    have hlen : 0 < t.length := List.length_pos.mpr htne
    have hfuel : t.length ≤ t.length + C := Nat.le_add_right _ _
    have hct : chunkText C O t = chunkGo C O t.length t := by
      simp [chunkText, ht]
    refine ⟨?_, ?_, ?_, ?_⟩
    · intro i hi
      simp only [hct] at hi ⊢
      exact chunkGo_getElem C O hO t.length t hfuel i hi
    · intro i hi
      simp only [hct] at hi ⊢
      exact chunkGo_full_length C O hO t.length t hfuel i hi
    · rw [hct]
      exact chunkGo_joinOverlap C O hO t.length t hfuel
    · rw [hct, chunkGo_length C O hO t.length t hfuel,
        if_neg (by omega)]
      by_cases hO2 : t.length ≤ O
      · rw [if_pos hO2, show t.length - C = 0 by omega, Nat.zero_add,
          Nat.div_eq_of_lt (by omega)]
      · rw [if_neg hO2]
        rcases Nat.lt_or_ge t.length C with h | h
        · rw [show t.length - C = 0 by omega, Nat.zero_add,
            Nat.div_eq_of_lt (by omega),
            Nat.div_eq_of_lt_le
              (show 1 * (C - O) ≤ t.length - O + (C - O) - 1 by omega)
              (by omega)]
        · rw [show t.length - O + (C - O) - 1 = t.length - C + (C - O) - 1 + (C - O) by omega,
            Nat.add_div_right _ (by omega)]

/-- Concrete instance of `chunker_correct`: chunk size 3, overlap 1,
text `abcde` (chunks `abc`, `cde`). -/
theorem chunker_correct_witness :
    1 < 3 ∧
    ((∀ i (hi : i < (chunkText 3 1 ['a', 'b', 'c', 'd', 'e']).length),
        (chunkText 3 1 ['a', 'b', 'c', 'd', 'e'])[i] =
          ((['a', 'b', 'c', 'd', 'e'] : List Char).drop (i * (3 - 1))).take 3) ∧
     (∀ i (hi : i + 1 < (chunkText 3 1 ['a', 'b', 'c', 'd', 'e']).length),
        (chunkText 3 1 ['a', 'b', 'c', 'd', 'e'])[i].length = 3) ∧
     joinOverlap 1 (chunkText 3 1 ['a', 'b', 'c', 'd', 'e']) =
       ['a', 'b', 'c', 'd', 'e'] ∧
     (chunkText 3 1 ['a', 'b', 'c', 'd', 'e']).length =
       (if (['a', 'b', 'c', 'd', 'e'] : List Char).length = 0 then 0
        else if (['a', 'b', 'c', 'd', 'e'] : List Char).length ≤ 1 then 1
        else ((['a', 'b', 'c', 'd', 'e'] : List Char).length - 1 + (3 - 1) - 1)
          / (3 - 1))) :=
  ⟨by decide, chunker_correct 3 1 (by decide) ['a', 'b', 'c', 'd', 'e']⟩

/-! ## Vector-index and ingestion lemmas -/

/-- Records kept by a filter never match the complemented predicate. -/
theorem filter_not_filter (p : ChunkRecord → Bool) (l : List ChunkRecord) :
    (l.filter (fun r => !(p r))).filter p = [] := by
  induction l with
  | nil => rfl
  | cons a l ih =>
    by_cases h : p a
    · simp [List.filter_cons, h, ih]
    · simp [List.filter_cons, h, ih]

/-- After `delete_document`, the index holds no record of the
document. -/
theorem recordsFor_deleteDocument (d : Nat) (idx : VecIndex) :
    recordsFor d (deleteDocument d idx) = [] :=
  filter_not_filter (fun r => r.docId == d) idx

/-- After an upsert, the upserted key holds exactly the new record. -/
theorem keyRecords_upsert (d o : Nat) (v : EmbVec) (tx : List Char)
    (idx : VecIndex) :
    keyRecords d o (upsert d o v tx idx) = [⟨d, o, v, tx⟩] := by
  unfold keyRecords upsert
  rw [List.filter_append, filter_not_filter (keyMatches d o) idx]
  simp [keyMatches]

/-- The embed-and-index stage either completes, or fails having rolled
back every record of the document. -/
theorem runIngest_completed_or (embed : List Char → Option EmbVec) (d : Nat) :
    ∀ (chunks : List (List Char)) (ord : Nat) (idx : VecIndex),
      (runIngest embed d chunks ord idx).1 = .completed ∨
      ((runIngest embed d chunks ord idx).1 = .failed ∧
       recordsFor d (runIngest embed d chunks ord idx).2 = []) := by
  intro chunks
  induction chunks with
  | nil => intro ord idx; exact Or.inl rfl
  | cons a rest ih =>
    intro ord idx
    cases hemb : embed a with
    | none =>
      simp only [runIngest, hemb]
      exact Or.inr ⟨trivial, recordsFor_deleteDocument d idx⟩
    | some v =>
      simp only [runIngest, hemb]
      exact ih (ord + 1) _

/-- An embedding failure on any chunk makes the stage fail with every
record of the document rolled back. -/
theorem runIngest_fail_mem (embed : List Char → Option EmbVec) (d : Nat) :
    ∀ (chunks : List (List Char)) (ord : Nat) (idx : VecIndex) (c : List Char),
      c ∈ chunks → embed c = none →
      (runIngest embed d chunks ord idx).1 = .failed ∧
      recordsFor d (runIngest embed d chunks ord idx).2 = [] := by
  intro chunks
  induction chunks with
  | nil => intro ord idx c hc; cases hc
  | cons a rest ih =>
    intro ord idx c hc he
    cases hemb : embed a with
    | none =>
      simp only [runIngest, hemb]
      exact ⟨trivial, recordsFor_deleteDocument d idx⟩
    | some v =>
      simp only [runIngest, hemb]
      rcases List.mem_cons.mp hc with h | h
      · rw [h, hemb] at he
        cases he
      · exact ih (ord + 1) _ c h he

/-- Claim C3: ingestion is all-or-nothing per document — an embedding
failure on any chunk leaves the Document `failed`, and whenever the
outcome is not `completed` the index contains zero chunks for that
document (already-issued upserts having been rolled back via
`delete_document`). -/
theorem ingest_all_or_nothing (C O : Nat) (embed : List Char → Option EmbVec)
    (d : Nat) (text : List Char) (idx : VecIndex) :
    ((∃ c ∈ chunkText C O text, embed c = none) →
      (ingest C O embed d text idx).status = .failed) ∧
    ((ingest C O embed d text idx).status ≠ .completed →
      recordsFor d (ingest C O embed d text idx).index = []) := by
  constructor
  · rintro ⟨c, hc, he⟩
    exact (runIngest_fail_mem embed d (chunkText C O text) 0
      (deleteDocument d idx) c hc he).1
  · intro hne
    rcases runIngest_completed_or embed d (chunkText C O text) 0
      (deleteDocument d idx) with h | h
    · exact absurd h hne
    · exact h.2

/-- Concrete instance of `ingest_all_or_nothing`: an embedder that
always fails, a one-character document. -/
theorem ingest_all_or_nothing_witness :
    (ingest 3 1 (fun _ => none) 7 ['a'] []).status = .failed ∧
    recordsFor 7 (ingest 3 1 (fun _ => none) 7 ['a'] []).index = [] :=
  ⟨(ingest_all_or_nothing 3 1 (fun _ => none) 7 ['a'] []).1 (by decide),
   (ingest_all_or_nothing 3 1 (fun _ => none) 7 ['a'] []).2 (by decide)⟩

/-- Claim C7: vector-index upsert is idempotent per chunk identity —
upserting the same `(document id, chunk ordinal)` twice, even with
different vectors, leaves exactly one record for that key, holding the
latest vector and text. -/
theorem upsert_idempotent (idx : VecIndex) (d o : Nat) (v1 v2 : EmbVec)
    (t1 t2 : List Char) :
    keyRecords d o (upsert d o v2 t2 (upsert d o v1 t1 idx)) =
      [⟨d, o, v2, t2⟩] :=
  keyRecords_upsert d o v2 t2 (upsert d o v1 t1 idx)

set_option maxRecDepth 100000 in
/-- Claim C2 counterexample: ingesting a 1000-character document with
chunk size 400 and overlap 200 records a chunk count of 4, not 3. -/
theorem ingest_1000_not_three_chunks :
    (ingest 400 200 (fun _ => some [0]) 0 (List.replicate 1000 'a') []).chunkCount ≠ 3 ∧
    (ingest 400 200 (fun _ => some [0]) 0 (List.replicate 1000 'a') []).status = .completed := by
  decide

set_option maxRecDepth 100000 in
/-- Claim C2 as amended: ingesting a 1000-character document with chunk
size 400 and overlap 200 produces exactly 4 chunks (offsets 0, 200,
400, 600) and leaves the Document `completed` with chunk count 4. -/
theorem ingest_1000_four_chunks :
    (ingest 400 200 (fun _ => some [0]) 0 (List.replicate 1000 'a') []).status = .completed ∧
    (ingest 400 200 (fun _ => some [0]) 0 (List.replicate 1000 'a') []).chunkCount = 4 := by
  decide

/-- Claim C4 counterexample: the chat caller has no way to issue a
query with a top_k other than 3 — `handleSendMessage` hardcodes
`top_k: 3` into every request body it builds. -/
theorem chat_top_k_not_overridable :
    ¬ ∃ (messages : List Message) (content : String) (now : Nat),
        (handleSendMessageStart messages content now).2.top_k ≠ 3 := by
  rintro ⟨ms, c, n, h⟩
  exact h rfl

/-- Claim C4 as amended: the top-K value the chat caller uses is the
hardcoded constant 3 — every request `handleSendMessage` issues carries
`top_k = 3`, so the chat caller cannot override it (the request format
has a `top_k` field, but the caller never varies it). -/
theorem chat_top_k_hardcoded (messages : List Message) (content : String)
    (now : Nat) :
    (handleSendMessageStart messages content now).2.top_k = 3 := rfl

/-- Claim C5: each query is stateless relative to prior conversation
turns — for any two histories of prior turns, the same query text
produces an identical request, which carries only the current message
text and `top_k`, never prior turns. -/
theorem chat_request_stateless (h1 h2 : List Message) (content : String)
    (n1 n2 : Nat) :
    (handleSendMessageStart h1 content n1).2 =
      (handleSendMessageStart h2 content n2).2 ∧
    (handleSendMessageStart h1 content n1).2 = ⟨content, 3⟩ :=
  ⟨rfl, rfl⟩

/-- Claim C6: every Document record exposed via the uploads listing
carries all of: a stable id, original filename, a stored path
reference, byte size, upload timestamp, a lifecycle status drawn from
queued/processing/completed/failed, page count, chunk count, processing
duration, and last error message. -/
theorem upload_record_complete (d : LedgerDocument) :
    ((toUpload d).status = "queued" ∨ (toUpload d).status = "processing" ∨
     (toUpload d).status = "completed" ∨ (toUpload d).status = "failed") ∧
    (toUpload d).id = d.id ∧
    (toUpload d).filename = d.filename ∧
    (toUpload d).original_filename = d.original_filename ∧
    (toUpload d).file_size = d.file_size ∧
    (toUpload d).upload_timestamp = d.upload_timestamp ∧
    (toUpload d).num_pages = d.num_pages ∧
    (toUpload d).num_chunks = d.num_chunks ∧
    (toUpload d).processing_time_seconds = d.processing_time_seconds ∧
    (toUpload d).error_message = d.error_message := by
  obtain ⟨di, fn, ofn, fs, ts, st, np, nc, pt, em⟩ := d
  cases st <;> simp [toUpload, statusString]

/-- Claim C8: a failed chat request reaches the caller as a typed error
value rather than a crash, and the caller decides the user-facing
messaging — `handleSendMessage` appends the fixed error text as an
assistant turn and ends the loading state. -/
theorem chat_failure_handling (prev : List Message) (content : String)
    (e : RagError) (n1 n2 : Nat) :
    (handleSendMessage prev content (.error e) n1 n2).1 =
      prev ++ [⟨toString n1, .user, content⟩,
               ⟨toString n2, .assistant, chatErrorText⟩] ∧
    (handleSendMessage prev content (.error e) n1 n2).2.1 = false := by
  constructor
  · simp [handleSendMessage, handleSendMessageStart, handleSendMessageFinish,
      List.append_assoc]
  · rfl

/-- Claim C9: the input box never emits a blank message — when the
whitespace-trimmed input is empty, or the box is disabled, nothing is
sent; when a message is sent it is the untrimmed input text and the
field is reset to empty. -/
theorem handleSend_no_blank (input : List Char) (disabled : Bool) :
    (trimChars input = [] → (handleSend input disabled).1 = none) ∧
    (disabled = true → (handleSend input disabled).1 = none) ∧
    (∀ m, (handleSend input disabled).1 = some m →
      m = input ∧ (handleSend input disabled).2 = []) := by
  unfold handleSend
  by_cases h : trimChars input ≠ [] ∧ disabled = false
  · rw [if_pos h]
    refine ⟨fun he => absurd he h.1, fun hd => ?_, fun m hm => ?_⟩
    · rw [hd] at h
      cases h.2
    · exact ⟨(Option.some.inj hm).symm, rfl⟩
  · rw [if_neg h]
    exact ⟨fun _ => rfl, fun _ => rfl, fun m hm => nomatch hm⟩

/-- Concrete instances of `handleSend_no_blank`: a whitespace-only
input sends nothing, a disabled box sends nothing, and a sent message
is the untrimmed text with the field reset. -/
theorem handleSend_no_blank_witness :
    (handleSend [' ', ' '] false).1 = none ∧
    (handleSend [' ', 'h', 'i'] true).1 = none ∧
    ([' ', 'h', 'i'] : List Char) = [' ', 'h', 'i'] ∧
    (handleSend [' ', 'h', 'i'] false).2 = [] :=
  ⟨(handleSend_no_blank [' ', ' '] false).1 (by decide),
   (handleSend_no_blank [' ', 'h', 'i'] true).2.1 (by decide),
   (handleSend_no_blank [' ', 'h', 'i'] false).2.2 [' ', 'h', 'i'] (by decide)⟩

/-- Claim C10: the upload handlers consider only the first file of any
dropped or selected list; a non-PDF first file sets an error status and
fires `onUploadError`, both with the message `Only PDF files are
allowed`, without initiating an upload; an upload is only ever
initiated with a file of MIME type `application/pdf`. -/
theorem upload_pdf_only (f : WebFile) (rest rest2 : List WebFile) :
    handleDrop (f :: rest) = handleDrop (f :: rest2) ∧
    handleFileSelect = handleDrop ∧
    handleDrop ([] : List WebFile) = .none ∧
    (f.type ≠ "application/pdf" →
      handleDrop (f :: rest) =
        .reject "Only PDF files are allowed" "Only PDF files are allowed") ∧
    (∀ g, handleDrop (f :: rest) = .upload g →
      g.type = "application/pdf" ∧ g = f) := by
  refine ⟨rfl, rfl, rfl, fun hne => ?_, fun g hg => ?_⟩
  · simp [handleDrop, handleFiles, hne]
  · by_cases h : f.type = "application/pdf"
    · simp [handleDrop, handleFiles, h] at hg
      subst hg
      exact ⟨h, rfl⟩
    · simp [handleDrop, handleFiles, h] at hg

/-- Concrete instance of `upload_pdf_only`: a `text/plain` file is
rejected with the fixed message. -/
theorem upload_pdf_only_witness :
    handleDrop [⟨"notes.txt", "text/plain"⟩] =
      .reject "Only PDF files are allowed" "Only PDF files are allowed" :=
  (upload_pdf_only ⟨"notes.txt", "text/plain"⟩ [] []).2.2.2.1 (by decide)
